import Mathlib

/-!
Shallow embedding of the OpenSeries repository (CaptorAB/OpenSeries) core:
date-range resolution (`datefixer.get_calc_range`), frame merging
(`frame.OpenFrame.merge_series`), EWMA recurrences (`risk.ewma_calc`,
`frame.OpenFrame.ewma_risk`), downside deviation, geometric return,
volatility annualization, VaR/CVaR, portfolio construction
(`frame.OpenFrame.make_portfolio`) and constituent deletion
(`frame.OpenFrame.delete_timeseries`).

Python `datetime.date` values are modelled by their proleptic Gregorian
ordinal (`date.toordinal()`), an integer with day 1 = 0001-01-01:
`timedelta(days=k)` is integer addition, date comparison is integer
comparison, and `(a - b).days` is integer subtraction.  Month offsets
(`dateutil.relativedelta(months=k)`) go through year/month/day triples.
Machine floats are modelled by rationals and reals; the IEEE special
values that matter to the claims (inf, nan from numpy scalar division)
are modelled explicitly by the `NpFloat` type.
-/

namespace OpenSeries

/-- Gregorian leap-year predicate (as in Python `calendar.isleap`). -/
def isLeapYear (y : Int) : Bool :=
  (y % 4 == 0 && y % 100 != 0) || y % 400 == 0

/-- Number of days in month `m` (1..12) of year `y`. -/
def daysInMonth (y : Int) (m : Nat) : Nat :=
  if m == 2 then (if isLeapYear y then 29 else 28)
  else if m == 4 || m == 6 || m == 9 || m == 11 then 30
  else 31

/-- Days in year `y` strictly before month `m` (1..12). -/
def daysBeforeMonth (y : Int) (m : Nat) : Nat :=
  (List.range (m - 1)).foldl (fun acc i => acc + daysInMonth y (i + 1)) 0

/-- Days before January 1st of year `y`, counting from 0001-01-01 = day 1. -/
def daysBeforeYear (y : Int) : Int :=
  365 * (y - 1) + (y - 1).fdiv 4 - (y - 1).fdiv 100 + (y - 1).fdiv 400

/-- `datetime.date(y, m, d).toordinal()`. -/
def toOrdinal (y : Int) (m d : Nat) : Int :=
  daysBeforeYear y + daysBeforeMonth y m + d

/-- `datetime.date.fromordinal`: ordinal back to (year, month, day).
Uses the standard 400/100/4/1-year decomposition with the usual clamping
of the 100-year and 1-year quotients to 3 so that the last day of a leap
cycle falls in December. -/
def fromOrdinal (n : Int) : Int × Nat × Nat :=
  let n0 := n - 1
  let n400 := n0.fdiv 146097
  let r0 := n0 - 146097 * n400
  let n100 := min (r0.fdiv 36524) 3
  let r1 := r0 - 36524 * n100
  let n4 := r1.fdiv 1461
  let r2 := r1 - 1461 * n4
  let n1 := min (r2.fdiv 365) 3
  let rem := (r2 - 365 * n1).toNat
  let y := 400 * n400 + 100 * n100 + 4 * n4 + n1 + 1
  let m := (List.range 12).foldl
    (fun acc i =>
      if daysBeforeMonth y (i + 1) ≤ rem then i + 1 else acc) 1
  (y, m, rem - daysBeforeMonth y m + 1)

/-- `dateutil.relativedelta(months := k)` applied to a (y, m, d) triple:
shift the month, clamping the day to the length of the target month. -/
def addMonths (y : Int) (m d : Nat) (k : Int) : Int × Nat × Nat :=
  let total : Int := 12 * y + (m - 1 : Nat) + k
  let y2 := total.fdiv 12
  let m2 := (total - 12 * y2).toNat + 1
  (y2, m2, min d (daysInMonth y2 m2))

/-- `datefixer.date_offset_foll(raw_date, months_offset, adjust=False)`:
adds `months_offset` calendar months.  (`get_calc_range` only calls it
with `adjust=False`, so the business-day adjustment branch is not
exercised here.) -/
def date_offset_foll (rawDate : Int) (monthsOffset : Int) : Int :=
  let ymd := fromOrdinal rawDate
  let ymd2 := addMonths ymd.1 ymd.2.1 ymd.2.2 monthsOffset
  toOrdinal ymd2.1 ymd2.2.1 ymd2.2.2

/-- Errors that `get_calc_range` can signal: a failed Python `assert`,
or (in the model) exhaustion of the fuel bounding the unbounded
`while ... not in ...` snapping loops (which in Python would not
terminate). -/
inductive DateRangeError where
  | assertionError
  | noTermination
  deriving DecidableEq, Repr

/-- The `while earlier not in data.index: earlier -= dt.timedelta(days=1)`
loop of `get_calc_range`, with explicit fuel. -/
def snapBackward (dates : List Int) : Nat → Int → Option Int
  | 0, _ => none
  | fuel + 1, d => if d ∈ dates then some d else snapBackward dates fuel (d - 1)

/-- The `while later not in data.index: later += dt.timedelta(days=1)`
loop of `get_calc_range`, with explicit fuel. -/
def snapForward (dates : List Int) : Nat → Int → Option Int
  | 0, _ => none
  | fuel + 1, d => if d ∈ dates then some d else snapForward dates fuel (d + 1)

/-- Run both snapping loops of `get_calc_range` on the computed raw pair.
The fuel suffices exactly when the boundary lies on the right side of the
series' first (resp. last) date, which is the regime where the Python
loops terminate. -/
def snapPair (dates : List Int) (e l : Int) :
    Except DateRangeError (Int × Int) :=
  let first := dates.headD 0
  let last := dates.getLastD 0
  match snapBackward dates ((e - first).toNat + 1) e,
      snapForward dates ((last - l).toNat + 1) l with
  | some e2, some l2 => .ok (e2, l2)
  | _, _ => .error .noTermination

/-- `datefixer.get_calc_range(data, months_offset, from_dt, to_dt)` on a
series whose date index is `dates` (ascending).  Returns the resolved
(start, end) pair, or the error corresponding to a failed `assert`. -/
def get_calc_range (dates : List Int)
    (monthsOffset fromDt toDt : Option Int) :
    Except DateRangeError (Int × Int) :=
  let first := dates.headD 0
  let last := dates.getLastD 0
  match monthsOffset, fromDt, toDt with
  | none, none, none => .ok (first, last)
  | some m, _, _ =>
      let earlier := date_offset_foll last (-m)
      if first ≤ earlier then snapPair dates earlier last
      else .error .assertionError
  | none, some f, none =>
      if first ≤ f then snapPair dates f last
      else .error .assertionError
  | none, none, some t =>
      if t ≤ last then snapPair dates first t
      else .error .assertionError
  | none, some f, some t =>
      if t ≤ last ∧ first ≤ f then snapPair dates f t
      else .error .assertionError

/-- The raw start boundary computed by `get_calc_range` before snapping. -/
def rawStart (dates : List Int) (monthsOffset fromDt toDt : Option Int) :
    Int :=
  match monthsOffset, fromDt, toDt with
  | some m, _, _ => date_offset_foll (dates.getLastD 0) (-m)
  | none, some f, _ => f
  | none, none, _ => dates.headD 0

/-- The raw end boundary computed by `get_calc_range` before snapping. -/
def rawEnd (dates : List Int) (monthsOffset fromDt toDt : Option Int) :
    Int :=
  match monthsOffset, fromDt, toDt with
  | some _, _, _ => dates.getLastD 0
  | none, _, some t => t
  | none, _, none => dates.getLastD 0

theorem snapBackward_spec (dates : List Int) (first : Int)
    (hfirst : first ∈ dates) :
    ∀ (fuel : Nat) (d : Int), first ≤ d → (d - first).toNat < fuel →
      ∃ s, snapBackward dates fuel d = some s ∧ s ∈ dates ∧ s ≤ d ∧
        ∀ x ∈ dates, x ≤ d → x ≤ s := by
  intro fuel
  induction fuel with
  | zero => intro d _ h; omega
  | succ n ih =>
      intro d hle hfuel
      by_cases hd : d ∈ dates
      · exact ⟨d, by simp [snapBackward, hd], hd, le_refl d,
          fun x _ hx => hx⟩
      · have hne : first ≠ d := fun h => hd (h ▸ hfirst)
        have hlt : first ≤ d - 1 := by omega
        obtain ⟨s, hs, hsmem, hsle, hmax⟩ := ih (d - 1) hlt (by omega)
        refine ⟨s, by simp [snapBackward, hd, hs], hsmem, by omega, ?_⟩
        intro x hx hxd
        have : x ≠ d := fun h => hd (h ▸ hx)
        exact hmax x hx (by omega)

theorem snapForward_spec (dates : List Int) (last : Int)
    (hlast : last ∈ dates) :
    ∀ (fuel : Nat) (d : Int), d ≤ last → (last - d).toNat < fuel →
      ∃ s, snapForward dates fuel d = some s ∧ s ∈ dates ∧ d ≤ s ∧
        ∀ x ∈ dates, d ≤ x → s ≤ x := by
  intro fuel
  induction fuel with
  | zero => intro d _ h; omega
  | succ n ih =>
      intro d hle hfuel
      by_cases hd : d ∈ dates
      · exact ⟨d, by simp [snapForward, hd], hd, le_refl d,
          fun x _ hx => hx⟩
      · have hne : last ≠ d := fun h => hd (h ▸ hlast)
        have hlt : d + 1 ≤ last := by omega
        obtain ⟨s, hs, hsmem, hsle, hmin⟩ := ih (d + 1) hlt (by omega)
        refine ⟨s, by simp [snapForward, hd, hs], hsmem, by omega, ?_⟩
        intro x hx hxd
        have : x ≠ d := fun h => hd (h ▸ hx)
        exact hmin x hx (by omega)

theorem snapPair_spec (dates : List Int) (e l : Int)
    (hne : dates ≠ [])
    (hlo : dates.headD 0 ≤ e) (hhi : l ≤ dates.getLastD 0) :
    ∃ s t, snapPair dates e l = .ok (s, t) ∧
      s ∈ dates ∧ s ≤ e ∧ (∀ x ∈ dates, x ≤ e → x ≤ s) ∧
      t ∈ dates ∧ l ≤ t ∧ (∀ x ∈ dates, l ≤ x → t ≤ x) := by
  have hfirst : dates.headD 0 ∈ dates := by
    cases dates with
    | nil => exact absurd rfl hne
    | cons a as => exact List.mem_cons_self a as
  have hlast : dates.getLastD 0 ∈ dates := by
    cases dates with
    | nil => exact absurd rfl hne
    | cons a as =>
        rw [List.getLastD_eq_getLast? , List.getLast?_eq_getLast (a :: as)
          (by simp)]
        simp [List.getLast_mem]
  obtain ⟨s, hs, hsmem, hsle, hmax⟩ :=
    snapBackward_spec dates (dates.headD 0) hfirst
      ((e - dates.headD 0).toNat + 1) e hlo (by omega)
  obtain ⟨t, ht, htmem, htle, hmin⟩ :=
    snapForward_spec dates (dates.getLastD 0) hlast
      ((dates.getLastD 0 - l).toNat + 1) l hhi (by omega)
  refine ⟨s, t, ?_, hsmem, hsle, hmax, htmem, htle, hmin⟩
  simp only [snapPair]
  rw [hs, ht]

/-- C3: for every date series and every date-range request (months
offset, from date and/or to date) whose computed raw boundaries lie
within the series' first and last dates, `get_calc_range` snaps a start
boundary not present in the series backward one calendar day at a time
and an end boundary not present forward one calendar day at a time until
a date present in the series is found, and returns that (start, end)
pair without raising: the returned start is the greatest series date
`≤` the raw start boundary and the returned end is the least series
date `≥` the raw end boundary. -/
theorem get_calc_range_snaps (dates : List Int)
    (monthsOffset fromDt toDt : Option Int)
    (hne : dates ≠ [])
    (hlo : dates.headD 0 ≤ rawStart dates monthsOffset fromDt toDt)
    (hhi : rawEnd dates monthsOffset fromDt toDt ≤ dates.getLastD 0) :
    ∃ s t, get_calc_range dates monthsOffset fromDt toDt = .ok (s, t) ∧
      s ∈ dates ∧ s ≤ rawStart dates monthsOffset fromDt toDt ∧
      (∀ x ∈ dates, x ≤ rawStart dates monthsOffset fromDt toDt → x ≤ s) ∧
      t ∈ dates ∧ rawEnd dates monthsOffset fromDt toDt ≤ t ∧
      (∀ x ∈ dates, rawEnd dates monthsOffset fromDt toDt ≤ x → t ≤ x) := by
  have hfirst : dates.headD 0 ∈ dates := by
    cases dates with
    | nil => exact absurd rfl hne
    | cons a as => exact List.mem_cons_self a as
  have hlast : dates.getLastD 0 ∈ dates := by
    cases dates with
    | nil => exact absurd rfl hne
    | cons a as =>
        rw [List.getLastD_eq_getLast? , List.getLast?_eq_getLast (a :: as)
          (by simp)]
        simp [List.getLast_mem]
  match hm : monthsOffset, hf : fromDt, ht : toDt with
  | none, none, none =>
      refine ⟨dates.headD 0, dates.getLastD 0, rfl, hfirst, ?_⟩
      simp only [rawStart, rawEnd] at *
      exact ⟨le_refl _, fun x _ h => h, hlast, le_refl _, fun x hx h => h⟩
  | some m, f?, t? =>
      simp only [rawStart, rawEnd] at hlo hhi
      obtain ⟨s, t, hpair, hrest⟩ := snapPair_spec dates
        (date_offset_foll (dates.getLastD 0) (-m)) (dates.getLastD 0)
        hne hlo hhi
      refine ⟨s, t, ?_, ?_⟩
      · simp only [get_calc_range]
        rw [if_pos hlo]; exact hpair
      · simpa [rawStart, rawEnd] using hrest
  | none, some f, none =>
      simp only [rawStart, rawEnd] at hlo hhi
      obtain ⟨s, t, hpair, hrest⟩ := snapPair_spec dates f
        (dates.getLastD 0) hne hlo hhi
      refine ⟨s, t, ?_, ?_⟩
      · simp only [get_calc_range]
        rw [if_pos hlo]; exact hpair
      · simpa [rawStart, rawEnd] using hrest
  | none, none, some t0 =>
      simp only [rawStart, rawEnd] at hlo hhi
      obtain ⟨s, t, hpair, hrest⟩ := snapPair_spec dates
        (dates.headD 0) t0 hne hlo hhi
      refine ⟨s, t, ?_, ?_⟩
      · simp only [get_calc_range]
        rw [if_pos hhi]; exact hpair
      · simpa [rawStart, rawEnd] using hrest
  | none, some f, some t0 =>
      simp only [rawStart, rawEnd] at hlo hhi
      obtain ⟨s, t, hpair, hrest⟩ := snapPair_spec dates f t0 hne hlo hhi
      refine ⟨s, t, ?_, ?_⟩
      · simp only [get_calc_range]
        rw [if_pos ⟨hhi, hlo⟩]; exact hpair
      · simpa [rawStart, rawEnd] using hrest

/-- Witness for C3 at a concrete input: series dates (as ordinals)
`[737790, 737791, 737795]`, request `from = 737793` (absent from the
series, inside its span): the resolver returns `(737791, 737795)`,
i.e. the start snapped backward to the nearest present date. -/
theorem get_calc_range_snaps_witness :
    ([737790, 737791, 737795] : List Int) ≠ [] ∧
      ∃ s t, get_calc_range [737790, 737791, 737795] none (some 737793)
          none = .ok (s, t) ∧
        s ∈ ([737790, 737791, 737795] : List Int) ∧
        s ≤ rawStart [737790, 737791, 737795] none (some 737793) none ∧
        (∀ x ∈ ([737790, 737791, 737795] : List Int),
          x ≤ rawStart [737790, 737791, 737795] none (some 737793) none →
            x ≤ s) ∧
        t ∈ ([737790, 737791, 737795] : List Int) ∧
        rawEnd [737790, 737791, 737795] none (some 737793) none ≤ t ∧
        (∀ x ∈ ([737790, 737791, 737795] : List Int),
          rawEnd [737790, 737791, 737795] none (some 737793) none ≤ x →
            t ≤ x) :=
  ⟨by decide,
    get_calc_range_snaps [737790, 737791, 737795] none (some 737793) none
      (by decide) (by decide) (by decide)⟩

/-! ## Frames: constituents, shared table, merge_series, delete_timeseries -/

/-- One `OpenTimeSeries` as `OpenFrame` sees it: a label and a
single-column observation table `tsdf` keyed by ascending, unique
date ordinals. -/
structure TS where
  label : String
  rows : List (Int × ℚ)
  deriving DecidableEq, Repr

/-- A multi-column pandas DataFrame: one (level-0 label) per column and
rows of optional values (missing observations are `none`/NaN) keyed by
date ordinal. -/
structure MTable where
  cols : List String
  rows : List (Int × List (Option ℚ))
  deriving DecidableEq, Repr

/-- The single-column DataFrame of one constituent. -/
def tsTable (c : TS) : MTable :=
  { cols := [c.label], rows := c.rows.map fun r => (r.1, [some r.2]) }

/-- Look a row up by its date label. -/
def rowLookup (t : MTable) (d : Int) : Option (List (Option ℚ)) :=
  (t.rows.find? fun r => r.1 == d).map fun r => r.2

inductive HowMerge where
  | outer
  | inner
  deriving DecidableEq, Repr

/-- `pandas.merge(left, right, how="inner", left_index=True,
right_index=True)` on date-unique indexes: keep the dates present in
both tables, concatenating the row values. -/
def mergeInner (l r : MTable) : MTable :=
  { cols := l.cols ++ r.cols,
    rows := l.rows.filterMap fun row =>
      (rowLookup r row.1).map fun vs => (row.1, row.2 ++ vs) }

/-- `pandas.merge(left, right, how="outer", left_index=True,
right_index=True)` on ascending date-unique indexes: the sorted union
of the dates, each row concatenating the two tables' values at that
date, padding the side that lacks the date with missing values. -/
def mergeOuter (l r : MTable) : MTable :=
  { cols := l.cols ++ r.cols,
    rows := (List.insertionSort (· ≤ ·)
        (l.rows.map Prod.fst ++
          (r.rows.map Prod.fst).filter
            (fun d => d ∉ l.rows.map Prod.fst))).map
      fun d =>
        (d, (rowLookup l d).getD (List.replicate l.cols.length none) ++
          (rowLookup r d).getD (List.replicate r.cols.length none)) }

def mergeTables (how : HowMerge) (l r : MTable) : MTable :=
  match how with
  | .outer => mergeOuter l r
  | .inner => mergeInner l r

/-- `functools.reduce(lambda left, right: merge(...), tables)`. -/
def reduceMerge (how : HowMerge) (tables : List MTable) : MTable :=
  match tables with
  | [] => { cols := [], rows := [] }
  | t :: rest => rest.foldl (mergeTables how) t

/-- The mutable state of an `OpenFrame`: the constituent list, the
optional parallel weight list and the shared table `tsdf`. -/
structure OpenFrame where
  constituents : List TS
  weights : Option (List ℚ)
  tsdf : MTable
  deriving DecidableEq, Repr

/-- The error raised by `merge_series` when the merged table is empty
(a Python `ValueError`). -/
inductive MergeError where
  | emptyMergeValueError
  deriving DecidableEq, Repr

/-- `xerie.tsdf.loc[self.tsdf.index]`: select the constituent's rows at
the dates of the merged index, in index order. -/
def truncTS (mergedRows : List (Int × List (Option ℚ))) (c : TS) : TS :=
  { c with rows := mergedRows.filterMap fun mr =>
      (c.rows.find? fun cr => cr.1 == mr.1).map fun cr => (mr.1, cr.2) }

/-- `OpenFrame.merge_series(how)`.  Mirrors the statement order of the
Python body: `self.tsdf` is assigned the merged table first, then the
empty check raises, then (for `how="inner"`) each constituent's own
table is truncated to the merged index.  The returned pair is the
post-call frame state together with the raised error, if any. -/
def merge_series (f : OpenFrame) (how : HowMerge) :
    OpenFrame × Option MergeError :=
  let merged := reduceMerge how (f.constituents.map tsTable)
  let f1 := { f with tsdf := merged }
  if merged.rows.isEmpty then (f1, some .emptyMergeValueError)
  else
    match how with
    | .inner =>
        ({ f1 with constituents :=
            f.constituents.map (truncTS merged.rows) }, none)
    | .outer => (f1, none)

/-- Drop every column whose level-0 label equals `label`
(`self.tsdf.drop(lvl_zero_item, axis="columns", level=0)`). -/
def dropColumn (t : MTable) (label : String) : MTable :=
  { cols := t.cols.filter fun c => c ≠ label,
    rows := t.rows.map fun r =>
      (r.1, ((t.cols.zip r.2).filter fun p => p.1 ≠ label).map fun p => p.2) }

/-- Python truthiness of `self.weights` (`Optional[list]`): truthy iff
not `None` and not the empty list. -/
def weightsTruthy : Option (List ℚ) → Bool
  | none => false
  | some w => !w.isEmpty

/-- `OpenFrame.delete_timeseries(lvl_zero_item)`: when a weight list is
attached (truthy), keep the (constituent, weight) pairs whose label
differs; otherwise filter the constituents only.  The shared table
drops the matching columns. -/
def delete_timeseries (f : OpenFrame) (lvlZeroItem : String) : OpenFrame :=
  let cw : List TS × Option (List ℚ) :=
    if weightsTruthy f.weights then
      let pairs := (f.constituents.zip (f.weights.getD [])).filter
        fun p => p.1.label ≠ lvlZeroItem
      (pairs.map fun p => p.1, some (pairs.map fun p => p.2))
    else
      (f.constituents.filter fun c => c.label ≠ lvlZeroItem, f.weights)
  { constituents := cw.1, weights := cw.2,
    tsdf := dropColumn f.tsdf lvlZeroItem }

theorem mem_dates_mergeInner (l r : MTable) (d : Int) :
    d ∈ (mergeInner l r).rows.map Prod.fst ↔
      (d ∈ l.rows.map Prod.fst ∧ d ∈ r.rows.map Prod.fst) := by
  constructor
  · intro h
    obtain ⟨row, hrow, hfst⟩ := List.mem_map.mp h
    obtain ⟨a, ha, hfa⟩ := List.mem_filterMap.mp hrow
    obtain ⟨vs, hvs, hb⟩ := Option.map_eq_some'.mp hfa
    obtain ⟨rr, hrr, hrr2⟩ := Option.map_eq_some'.mp hvs
    have hamem : a.1 = d := by rw [← hb] at hfst; exact hfst
    refine ⟨List.mem_map.mpr ⟨a, ha, hamem⟩, ?_⟩
    have hrmem := List.mem_of_find?_eq_some hrr
    have hpred := List.find?_some hrr
    have : rr.1 = a.1 := by simpa using hpred
    exact List.mem_map.mpr ⟨rr, hrmem, by omega⟩
  · rintro ⟨hl, hr⟩
    obtain ⟨a, ha, hafst⟩ := List.mem_map.mp hl
    have hfind : (r.rows.find? fun x => x.1 == a.1).isSome := by
      apply List.find?_isSome.mpr
      obtain ⟨b, hb, hbfst⟩ := List.mem_map.mp hr
      exact ⟨b, hb, by simp [hbfst, hafst]⟩
    obtain ⟨rr, hrr⟩ := Option.isSome_iff_exists.mp hfind
    refine List.mem_map.mpr ⟨(a.1, a.2 ++ rr.2), ?_, hafst⟩
    exact List.mem_filterMap.mpr
      ⟨a, ha, by simp [rowLookup, hrr]⟩

theorem mem_dates_foldInner (tables : List MTable) (t0 : MTable) (d : Int) :
    d ∈ (tables.foldl (mergeTables .inner) t0).rows.map Prod.fst ↔
      (d ∈ t0.rows.map Prod.fst ∧
        ∀ t ∈ tables, d ∈ t.rows.map Prod.fst) := by
  induction tables generalizing t0 with
  | nil => simp
  | cons t ts ih =>
      simp only [List.foldl_cons, mergeTables]
      rw [ih, mem_dates_mergeInner]
      simp only [List.forall_mem_cons]
      tauto

theorem mem_dates_reduceMergeInner (cs : List MTable) (hne : cs ≠ [])
    (d : Int) :
    d ∈ (reduceMerge .inner cs).rows.map Prod.fst ↔
      ∀ t ∈ cs, d ∈ t.rows.map Prod.fst := by
  match cs with
  | [] => exact absurd rfl hne
  | t :: rest =>
      simp only [reduceMerge]
      rw [mem_dates_foldInner]
      simp [List.forall_mem_cons]

theorem dates_tsTable (c : TS) :
    (tsTable c).rows.map Prod.fst = c.rows.map Prod.fst := by
  simp [tsTable, List.map_map, Function.comp]

theorem eq_snd_of_mem_keyNodup {l : List (Int × ℚ)}
    (h : (l.map Prod.fst).Nodup) {d : Int} {v w : ℚ}
    (hv : (d, v) ∈ l) (hw : (d, w) ∈ l) : v = w := by
  induction l with
  | nil => simp at hv
  | cons a tl ih =>
      simp only [List.map_cons, List.nodup_cons] at h
      rcases List.mem_cons.mp hv with hva | hv2
      · rcases List.mem_cons.mp hw with hwa | hw2
        · rw [← hva] at hwa
          exact (Prod.mk.injEq _ _ _ _ ▸ hwa).2.symm
        · exfalso
          apply h.1
          exact List.mem_map.mpr ⟨(d, w), hw2, by rw [← hva]⟩
      · rcases List.mem_cons.mp hw with hwa | hw2
        · exfalso
          apply h.1
          exact List.mem_map.mpr ⟨(d, v), hv2, by rw [← hwa]⟩
        · exact ih h.2 hv2 hw2

theorem mem_truncTS (merged : List (Int × List (Option ℚ))) (c : TS)
    (hnodup : (c.rows.map Prod.fst).Nodup) (d : Int) (v : ℚ) :
    (d, v) ∈ (truncTS merged c).rows ↔
      (d ∈ merged.map Prod.fst ∧ (d, v) ∈ c.rows) := by
  constructor
  · intro h
    obtain ⟨mr, hmr, hfmr⟩ := List.mem_filterMap.mp h
    obtain ⟨cr, hcr, hcr2⟩ := Option.map_eq_some'.mp hfmr
    have hcrmem := List.mem_of_find?_eq_some hcr
    have hpred : cr.1 = mr.1 := by simpa using List.find?_some hcr
    have hd : mr.1 = d := by
      have := congrArg Prod.fst hcr2; simpa using this
    have hv : cr.2 = v := by
      have := congrArg Prod.snd hcr2; simpa using this
    refine ⟨List.mem_map.mpr ⟨mr, hmr, hd⟩, ?_⟩
    have : cr = (d, v) := Prod.ext (by omega) hv
    exact this ▸ hcrmem
  · rintro ⟨hmem, hrow⟩
    obtain ⟨mr, hmr, hd⟩ := List.mem_map.mp hmem
    have hfind : (c.rows.find? fun x => x.1 == mr.1).isSome := by
      apply List.find?_isSome.mpr
      exact ⟨(d, v), hrow, by simp [hd]⟩
    obtain ⟨cr, hcr⟩ := Option.isSome_iff_exists.mp hfind
    have hcrmem := List.mem_of_find?_eq_some hcr
    have hpred : cr.1 = mr.1 := by simpa using List.find?_some hcr
    have hcr1 : cr.1 = d := by omega
    have : cr = (d, cr.2) := Prod.ext hcr1 rfl
    have hv : cr.2 = v :=
      eq_snd_of_mem_keyNodup hnodup (this ▸ hcrmem) hrow
    refine List.mem_filterMap.mpr ⟨mr, hmr, ?_⟩
    rw [hcr]
    simp [hd, hv]

theorem forall₂_map_self {α β : Type} (g : α → β) (R : α → β → Prop)
    (l : List α) (h : ∀ a ∈ l, R a (g a)) :
    List.Forall₂ R l (l.map g) := by
  induction l with
  | nil => simp
  | cons a tl ih =>
      simp only [List.map_cons, List.forall₂_cons]
      exact ⟨h a (List.mem_cons_self a tl),
        ih fun x hx => h x (List.mem_cons_of_mem a hx)⟩

/-- The merged table `merge_series` computes and assigns to `tsdf`. -/
def mergedTable (f : OpenFrame) (how : HowMerge) : MTable :=
  reduceMerge how (f.constituents.map tsTable)

/-- C2: for every `OpenFrame` with two or more constituents (each with
unique dates) whose date sets intersect, `merge_series(how="inner")`
raises nothing, makes the shared table's date index exactly the
intersection of all constituents' dates, and destructively truncates
each constituent's own table to that intersection (same labels, rows
exactly the original rows at the intersection dates). -/
theorem merge_series_inner_intersection (f : OpenFrame)
    (hlen : 2 ≤ f.constituents.length)
    (hnodup : ∀ c ∈ f.constituents, (c.rows.map Prod.fst).Nodup)
    (hcommon : ∃ d : Int, ∀ c ∈ f.constituents, d ∈ c.rows.map Prod.fst) :
    (merge_series f .inner).2 = none ∧
    (∀ d : Int,
      d ∈ (merge_series f .inner).1.tsdf.rows.map Prod.fst ↔
        ∀ c ∈ f.constituents, d ∈ c.rows.map Prod.fst) ∧
    List.Forall₂ (fun c c2 : TS => c2.label = c.label ∧
        ∀ (d : Int) (v : ℚ), ((d, v) ∈ c2.rows ↔
          (d ∈ (merge_series f .inner).1.tsdf.rows.map Prod.fst ∧
            (d, v) ∈ c.rows)))
      f.constituents (merge_series f .inner).1.constituents := by
  have hne : f.constituents.map tsTable ≠ [] := by
    intro h
    rw [List.map_eq_nil_iff] at h
    rw [h] at hlen
    simp at hlen
  have hmem : ∀ d : Int,
      d ∈ (mergedTable f .inner).rows.map Prod.fst ↔
        ∀ c ∈ f.constituents, d ∈ c.rows.map Prod.fst := by
    intro d
    rw [mergedTable, mem_dates_reduceMergeInner _ hne]
    constructor
    · intro h c hc
      have := h (tsTable c) (List.mem_map.mpr ⟨c, hc, rfl⟩)
      rwa [dates_tsTable] at this
    · intro h t ht
      obtain ⟨c, hc, rfl⟩ := List.mem_map.mp ht
      rw [dates_tsTable]
      exact h c hc
  obtain ⟨d0, hd0⟩ := hcommon
  have hnonempty : ((mergedTable f .inner).rows.isEmpty) = false := by
    have : d0 ∈ (mergedTable f .inner).rows.map Prod.fst :=
      (hmem d0).mpr hd0
    rcases h : (mergedTable f .inner).rows with _ | ⟨r, rs⟩
    · rw [h] at this; simp at this
    · simp
  have hnonempty2 :
      (reduceMerge .inner (f.constituents.map tsTable)).rows.isEmpty
        = false := by
    simpa [mergedTable] using hnonempty
  have hres : merge_series f .inner =
      (⟨f.constituents.map (truncTS (mergedTable f .inner).rows),
        f.weights, mergedTable f .inner⟩, none) := by
    simp [merge_series, hnonempty2, mergedTable]
  rw [hres]
  refine ⟨rfl, hmem, ?_⟩
  apply forall₂_map_self
  intro c hc
  refine ⟨rfl, ?_⟩
  intro d v
  rw [mem_truncTS _ _ (hnodup c hc)]

/-- Concrete C2 scenario: two series sharing exactly one date. -/
def c2Frame : OpenFrame :=
  { constituents := [⟨"A", [(0, 1), (1, 2)]⟩, ⟨"B", [(1, 3), (2, 4)]⟩],
    weights := none,
    tsdf := reduceMerge .outer
      ([⟨"A", [(0, 1), (1, 2)]⟩, ⟨"B", [(1, 3), (2, 4)]⟩].map tsTable) }

/-- Witness for C2: two constituents overlapping only at date 1; the
inner merge succeeds, the shared index is exactly the intersection, and
both constituents are truncated accordingly. -/
theorem merge_series_inner_intersection_witness :
    (2 ≤ c2Frame.constituents.length ∧
      (∀ c ∈ c2Frame.constituents, (c.rows.map Prod.fst).Nodup) ∧
      ∃ d : Int, ∀ c ∈ c2Frame.constituents, d ∈ c.rows.map Prod.fst) ∧
    ((merge_series c2Frame .inner).2 = none ∧
      (∀ d : Int,
        d ∈ (merge_series c2Frame .inner).1.tsdf.rows.map Prod.fst ↔
          ∀ c ∈ c2Frame.constituents, d ∈ c.rows.map Prod.fst) ∧
      List.Forall₂ (fun c c2 : TS => c2.label = c.label ∧
          ∀ (d : Int) (v : ℚ), ((d, v) ∈ c2.rows ↔
            (d ∈ (merge_series c2Frame .inner).1.tsdf.rows.map Prod.fst ∧
              (d, v) ∈ c.rows)))
        c2Frame.constituents (merge_series c2Frame .inner).1.constituents) :=
  ⟨⟨by decide, by decide, ⟨1, by decide⟩⟩,
    merge_series_inner_intersection c2Frame (by decide) (by decide)
      ⟨1, by decide⟩⟩

/-- Concrete C1 scenario: two constituents with disjoint date sets, so
the inner merge is empty and raises. -/
def c1Frame : OpenFrame :=
  { constituents := [⟨"A", [(0, 1)]⟩, ⟨"B", [(1, 1)]⟩],
    weights := none,
    tsdf := reduceMerge .outer
      ([⟨"A", [(0, 1)]⟩, ⟨"B", [(1, 1)]⟩].map tsTable) }

/-- C1 counterexample: `merge_series` is *not* atomic.  On a frame whose
constituents share no dates, the inner merge produces an empty table and
raises, but the frame's `tsdf` is no longer the previous shared table:
it has already been overwritten with the empty merged result. -/
theorem merge_series_not_atomic :
    (merge_series c1Frame .inner).2 = some .emptyMergeValueError ∧
    (merge_series c1Frame .inner).1.tsdf ≠ c1Frame.tsdf := by decide

/-- C1 amended: when the merge of the constituents' tables produces an
empty table, `merge_series` raises, but the frame's `tsdf` has already
been replaced by the empty merged table (the previous shared table is
lost); the constituents and weights are left unchanged, so no inner
truncation is committed. -/
theorem merge_series_failed_state (f : OpenFrame) (how : HowMerge)
    (h : (mergedTable f how).rows = []) :
    (merge_series f how).2 = some .emptyMergeValueError ∧
    (merge_series f how).1.tsdf.rows = [] ∧
    (merge_series f how).1.constituents = f.constituents ∧
    (merge_series f how).1.weights = f.weights := by
  rw [mergedTable] at h
  simp [merge_series, h]

/-- Witness for the amended C1: at the concrete disjoint-dates frame the
failed inner merge leaves an empty `tsdf` and untouched constituents. -/
theorem merge_series_failed_state_witness :
    (mergedTable c1Frame .inner).rows = [] ∧
    ((merge_series c1Frame .inner).2 = some .emptyMergeValueError ∧
      (merge_series c1Frame .inner).1.tsdf.rows = [] ∧
      (merge_series c1Frame .inner).1.constituents = c1Frame.constituents ∧
      (merge_series c1Frame .inner).1.weights = c1Frame.weights) :=
  ⟨by decide, merge_series_failed_state c1Frame .inner (by decide)⟩

/-- C10: on a frame with an attached weight list parallel to its
constituents, `delete_timeseries` removes the constituents carrying the
label together with the weights at the same positions: afterwards the
weight list still has exactly the length of the constituent list, and
the remaining (constituent, weight) pairs are exactly the original
pairs whose label differs from the deleted one. -/
theorem delete_timeseries_alignment (f : OpenFrame) (w : List ℚ)
    (label : String) (hw : f.weights = some w)
    (hlen : w.length = f.constituents.length) :
    ∃ w2, (delete_timeseries f label).weights = some w2 ∧
      w2.length = (delete_timeseries f label).constituents.length ∧
      (delete_timeseries f label).constituents.zip w2 =
        (f.constituents.zip w).filter fun p => p.1.label ≠ label := by
  rcases w with _ | ⟨w0, wrest⟩
  · have hcs : f.constituents = [] := by
      have := hlen.symm
      simpa [List.length_eq_zero] using this
    refine ⟨[], ?_⟩
    simp [delete_timeseries, weightsTruthy, hw, hcs]
  · have htruthy : weightsTruthy f.weights = true := by
      rw [hw]; simp [weightsTruthy]
    refine ⟨(((f.constituents.zip (w0 :: wrest)).filter
      fun p => p.1.label ≠ label).map fun p => p.2), ?_, ?_, ?_⟩
    · simp [delete_timeseries, hw, weightsTruthy]
    · simp [delete_timeseries, hw, weightsTruthy]
    · simp only [delete_timeseries, hw, weightsTruthy,
        List.isEmpty_cons, Bool.not_false, if_true, Option.getD_some]
      rw [List.zip_map']
      simp

/-- Concrete C10 scenario: three weighted constituents, delete "B". -/
def c10Frame : OpenFrame :=
  { constituents := [⟨"A", [(0, 1)]⟩, ⟨"B", [(0, 2)]⟩, ⟨"C", [(0, 3)]⟩],
    weights := some [2, 1, 1],
    tsdf := reduceMerge .outer
      ([⟨"A", [(0, 1)]⟩, ⟨"B", [(0, 2)]⟩, ⟨"C", [(0, 3)]⟩].map tsTable) }

/-- Witness for C10 at the concrete frame. -/
theorem delete_timeseries_alignment_witness :
    (c10Frame.weights = some [2, 1, 1] ∧
      ([2, 1, 1] : List ℚ).length =
        c10Frame.constituents.length) ∧
    ∃ w2, (delete_timeseries c10Frame "B").weights = some w2 ∧
      w2.length = (delete_timeseries c10Frame "B").constituents.length ∧
      (delete_timeseries c10Frame "B").constituents.zip w2 =
        (c10Frame.constituents.zip [2, 1, 1]).filter
          fun p => p.1.label ≠ "B" :=
  ⟨⟨by decide, by decide⟩,
    delete_timeseries_alignment c10Frame [2, 1, 1] "B"
      (by decide) (by decide)⟩

/-! ## EWMA recurrence engine (`risk.ewma_calc`, `OpenFrame.ewma_risk`) -/

/-- Mean of a list of reals (`numpy.mean`); degenerate on `[]` exactly
as real division by zero (0), which no claim exercises. -/
noncomputable def sampleMean (l : List ℝ) : ℝ := l.sum / l.length

/-- `pandas.Series.std(ddof)` squared / `numpy.var`: sum of squared
deviations over `n - ddof`. -/
noncomputable def sampleVar (ddof : ℕ) (l : List ℝ) : ℝ :=
  (l.map fun x => (x - sampleMean l) ^ 2).sum / ((l.length : ℝ) - ddof)

/-- `pandas.Series.std(ddof)`. -/
noncomputable def sampleStd (ddof : ℕ) (l : List ℝ) : ℝ :=
  Real.sqrt (sampleVar ddof l)

/-- `numpy.cov(m, y, ddof)[0][1]`: sample covariance. -/
noncomputable def sampleCov (ddof : ℕ) (xs ys : List ℝ) : ℝ :=
  ((xs.zip ys).map fun p =>
    (p.1 - sampleMean xs) * (p.2 - sampleMean ys)).sum /
      ((xs.length : ℝ) - ddof)

/-- `risk.ewma_calc(reeturn, prev_ewma, time_factor, lmbda)`:
`sqrt(square(reeturn) * time_factor * (1 - lmbda) + square(prev_ewma) * lmbda)`. -/
noncomputable def ewma_calc (reeturn prevEwma timeFactor lmbda : ℝ) : ℝ :=
  Real.sqrt (reeturn ^ 2 * timeFactor * (1 - lmbda) +
    prevEwma ^ 2 * lmbda)

/-- One iteration of the `for _, row in data.iloc[1:].iterrows()` loop of
`OpenFrame.ewma_risk`: state is (vol A, vol B, covariance). -/
noncomputable def ewmaStep (tf lm : ℝ) (st : ℝ × ℝ × ℝ) (r : ℝ × ℝ) :
    ℝ × ℝ × ℝ :=
  (ewma_calc r.1 st.1 tf lm, ewma_calc r.2 st.2.1 tf lm,
    r.1 * r.2 * tf * (1 - lm) + st.2.2 * lm)

/-- The full list of states the `ewma_risk` loop appends: the seed state
followed by one state per processed return pair. -/
noncomputable def ewmaTrajectory (tf lm : ℝ) :
    (ℝ × ℝ × ℝ) → List (ℝ × ℝ) → List (ℝ × ℝ × ℝ)
  | st, [] => [st]
  | st, r :: rs => st :: ewmaTrajectory tf lm (ewmaStep tf lm st r) rs

/-- `OpenFrame.ewma_risk` on the two columns' log-return pairs `rets`
(the `Returns` column without its leading NaN; the loop runs over all of
them).  The seed uses the first `day_chunk - 1` return pairs
(`.iloc[1:day_chunk]`); output rows are
(vol A, vol B, covariance, correlation), the correlation computed at
every step — seed included — as `cov / (2 * vol_A * vol_B)`. -/
noncomputable def ewma_risk (tf lm : ℝ) (dayChunk ddof : ℕ)
    (rets : List (ℝ × ℝ)) : List (ℝ × ℝ × ℝ × ℝ) :=
  let window := rets.take (dayChunk - 1)
  let seed : ℝ × ℝ × ℝ :=
    (sampleStd ddof (window.map Prod.fst) * Real.sqrt tf,
      sampleStd ddof (window.map Prod.snd) * Real.sqrt tf,
      sampleCov ddof (window.map Prod.fst) (window.map Prod.snd))
  (ewmaTrajectory tf lm seed rets).map
    fun st => (st.1, st.2.1, st.2.2, st.2.2 / (2 * st.1 * st.2.1))

theorem ewmaTrajectory_head (tf lm : ℝ) (st : ℝ × ℝ × ℝ)
    (rets : List (ℝ × ℝ)) :
    (ewmaTrajectory tf lm st rets)[0]? = some st := by
  cases rets <;> simp [ewmaTrajectory]

theorem ewmaTrajectory_succ (tf lm : ℝ) :
    ∀ (rets : List (ℝ × ℝ)) (st : ℝ × ℝ × ℝ) (n : ℕ) (r : ℝ × ℝ),
      rets[n]? = some r →
        (ewmaTrajectory tf lm st rets)[n + 1]? =
          ((ewmaTrajectory tf lm st rets)[n]?).map
            fun prev => ewmaStep tf lm prev r := by
  intro rets
  induction rets with
  | nil => intro st n r h; simp at h
  | cons r0 rs ih =>
      intro st n r h
      match n with
      | 0 =>
          simp only [List.getElem?_cons_zero] at h
          cases h
          simp only [ewmaTrajectory, List.getElem?_cons_succ,
            List.getElem?_cons_zero]
          rw [ewmaTrajectory_head]
          rfl
      | Nat.succ m =>
          simp only [List.getElem?_cons_succ] at h
          simp only [ewmaTrajectory, List.getElem?_cons_succ]
          exact ih (ewmaStep tf lm st r0) m r h

/-- C4: in `ewma_risk`, every state after the seed updates each series'
volatility as `vol_t = sqrt(return_t^2 * periods * (1 - lambda) +
vol_(t-1)^2 * lambda)` and the covariance as `cov_t = rA_t * rB_t *
periods * (1 - lambda) + cov_(t-1) * lambda`; and at every step — the
seed included — the reported correlation equals
`cov_t / (2 * vol_A_t * vol_B_t)`, with the non-standard factor 2. -/
theorem ewma_risk_recurrence (tf lm : ℝ) (dayChunk ddof : ℕ)
    (rets : List (ℝ × ℝ)) :
    (∀ (n : ℕ) (st st2 : ℝ × ℝ × ℝ × ℝ) (r : ℝ × ℝ),
      (ewma_risk tf lm dayChunk ddof rets)[n]? = some st →
      (ewma_risk tf lm dayChunk ddof rets)[n + 1]? = some st2 →
      rets[n]? = some r →
      st2.1 = Real.sqrt (r.1 ^ 2 * tf * (1 - lm) + st.1 ^ 2 * lm) ∧
      st2.2.1 = Real.sqrt (r.2 ^ 2 * tf * (1 - lm) + st.2.1 ^ 2 * lm) ∧
      st2.2.2.1 = r.1 * r.2 * tf * (1 - lm) + st.2.2.1 * lm) ∧
    ∀ st ∈ ewma_risk tf lm dayChunk ddof rets,
      st.2.2.2 = st.2.2.1 / (2 * st.1 * st.2.1) := by
  constructor
  · intro n st st2 r hn hn2 hr
    simp only [ewma_risk, List.getElem?_map] at hn hn2
    rcases htr : (ewmaTrajectory tf lm _ rets)[n]? with _ | prev
    · rw [htr] at hn; simp at hn
    · rw [htr] at hn
      simp only [Option.map_some'] at hn
      have hsucc := ewmaTrajectory_succ tf lm rets
        (sampleStd ddof ((rets.take (dayChunk - 1)).map Prod.fst) *
            Real.sqrt tf,
          sampleStd ddof ((rets.take (dayChunk - 1)).map Prod.snd) *
            Real.sqrt tf,
          sampleCov ddof ((rets.take (dayChunk - 1)).map Prod.fst)
            ((rets.take (dayChunk - 1)).map Prod.snd)) n r hr
      rw [htr] at hsucc
      rw [hsucc] at hn2
      simp only [Option.map_some'] at hn2
      injection hn with hn
      injection hn2 with hn2
      subst hn
      subst hn2
      simp [ewmaStep, ewma_calc]
  · intro st hst
    simp only [ewma_risk, List.mem_map] at hst
    obtain ⟨x, _, rfl⟩ := hst
    rfl

/-- Witness for C4 at a concrete input: `tf = 1`, `lambda = 94/100`,
default `day_chunk = 11`, `ddof = 0`, a single zero return pair.  Both
the seed state and its successor evaluate to zeros, and applying the
recurrence theorem at step 0 gives the stated update equations. -/
theorem ewma_risk_recurrence_witness :
    (ewma_risk 1 (94/100) 11 0 [((0 : ℝ), (0 : ℝ))])[0]? =
        some (0, 0, 0, 0) ∧
    (ewma_risk 1 (94/100) 11 0 [((0 : ℝ), (0 : ℝ))])[1]? =
        some (0, 0, 0, 0) ∧
    ((0 : ℝ) = Real.sqrt ((0 : ℝ) ^ 2 * 1 * (1 - 94/100) + 0 ^ 2 * (94/100)) ∧
      (0 : ℝ) = Real.sqrt ((0 : ℝ) ^ 2 * 1 * (1 - 94/100) + 0 ^ 2 * (94/100)) ∧
      (0 : ℝ) = 0 * 0 * 1 * (1 - 94/100) + 0 * (94/100)) := by
  have h0 : (ewma_risk 1 (94/100) 11 0 [((0 : ℝ), (0 : ℝ))])[0]? =
      some (0, 0, 0, 0) := by
    simp [ewma_risk, ewmaTrajectory, ewmaStep, ewma_calc, sampleStd,
      sampleVar, sampleMean, sampleCov]
  have h1 : (ewma_risk 1 (94/100) 11 0 [((0 : ℝ), (0 : ℝ))])[1]? =
      some (0, 0, 0, 0) := by
    simp [ewma_risk, ewmaTrajectory, ewmaStep, ewma_calc, sampleStd,
      sampleVar, sampleMean, sampleCov]
  refine ⟨h0, h1, ?_⟩
  exact (ewma_risk_recurrence 1 (94/100) 11 0 [((0 : ℝ), (0 : ℝ))]).1
    0 (0, 0, 0, 0) (0, 0, 0, 0) (0, 0) h0 h1 (by rfl)

/-! ## Metric library: downside deviation, geometric return, volatility -/

/-- `self.tsdf.loc[earlier:later]` on an ascending date index: label
slicing keeps the rows with `earlier <= date <= later` (empty when the
bounds are inverted). -/
def locSlice (rows : List (Int × ℚ)) (earlier later : Int) :
    List (Int × ℚ) :=
  rows.filter fun r => earlier ≤ r.1 ∧ r.1 ≤ later

/-- `pandas.DataFrame.pct_change()` on a complete single column: the
list of simple returns `v_i / v_(i-1) - 1` (the leading NaN row is not
represented; every consumer below drops or skips it exactly as the
Python code's `count`/mask operations do). -/
def pctChange (vals : List ℚ) : List ℚ :=
  (vals.zip (vals.drop 1)).map fun p => p.2 / p.1 - 1

/-- Python truthiness of the `periods_in_a_year_fixed` argument
(`if periods_in_a_year_fixed:`): falsy when `None` *or* zero. -/
def optTruthy : Option ℚ → Bool
  | none => false
  | some p => p != 0

/-- The automatic annualization factor:
`how_many / ((later - earlier).days / 365.25)`. -/
def autoTimeFactor (count : ℕ) (e l : Int) : ℚ :=
  (count : ℚ) / (((l - e : Int) : ℚ) / (1461/4))

/-- The resolved time factor of `downside_deviation_func`:
the fixed value when truthy, otherwise the automatic one. -/
def ddTimeFactor (count : ℕ) (e l : Int) (pf : Option ℚ) : ℚ :=
  if optTruthy pf then pf.getD 0 else autoTimeFactor count e l

/-- `OpenTimeSeries.downside_deviation_func(min_accepted_return,
months_from_last, from_date, to_date, periods_in_a_year_fixed)`:
resolve the range, take simple returns over the slice, subtract
`MAR / time_factor`, and return
`sqrt(((dddf[dddf < 0]) ** 2).sum() / how_many) * sqrt(time_factor)`
with `how_many` the count of (non-NaN) returns in the slice. -/
noncomputable def downside_deviation_func (rows : List (Int × ℚ))
    (minAcceptedReturn : ℚ) (mo fr tto : Option Int) (pf : Option ℚ) :
    Except DateRangeError ℝ :=
  match get_calc_range (rows.map Prod.fst) mo fr tto with
  | .error e => .error e
  | .ok (earlier, later) =>
      let slice := locSlice rows earlier later
      let rets := pctChange (slice.map Prod.snd)
      let howMany := rets.length
      let timeFactor := ddTimeFactor howMany earlier later pf
      let dddf := rets.map fun r => r - minAcceptedReturn / timeFactor
      .ok (Real.sqrt
          ((((((dddf.filter fun x => x < 0).map fun x => x ^ 2).sum) /
            (howMany : ℚ) : ℚ) : ℝ)) *
        Real.sqrt ((timeFactor : ℚ) : ℝ))

theorem pctChange_length (vals : List ℚ) :
    (pctChange vals).length = vals.length - 1 := by
  simp [pctChange]

theorem sum_sq_filter_neg (l : List ℚ) :
    ((l.filter fun x => x < 0).map fun x => x ^ 2).sum =
      (l.map fun x => (min x 0) ^ 2).sum := by
  induction l with
  | nil => simp
  | cons x xs ih =>
      by_cases hx : x < 0
      · have hmin : min x 0 = x := min_eq_left (le_of_lt hx)
        simp [List.filter_cons, hx, hmin, ih]
      · have hmin : min x 0 = 0 := min_eq_right (le_of_not_lt hx)
        simp [List.filter_cons, hx, hmin, ih]

/-- C5: downside deviation is the root-mean-square of the clipped excess
returns `min(return - MAR/periods, 0)` over *all* returns in the
resolved range, scaled by `sqrt(periods)`: only the returns below zero
(after subtracting `MAR/periods`) contribute to the sum, but the divisor
is the full return count of the range (= slice length - 1), not the size
of the negative subset. -/
theorem downside_deviation_func_rms (rows : List (Int × ℚ))
    (mar : ℚ) (mo fr tto : Option Int) (pf : Option ℚ) (e l : Int)
    (hrange : get_calc_range (rows.map Prod.fst) mo fr tto = .ok (e, l)) :
    (pctChange ((locSlice rows e l).map Prod.snd)).length =
        (locSlice rows e l).length - 1 ∧
    downside_deviation_func rows mar mo fr tto pf =
      .ok (Real.sqrt
          (((((pctChange ((locSlice rows e l).map Prod.snd)).map
              fun r => (min (r - mar / ddTimeFactor
                (pctChange ((locSlice rows e l).map Prod.snd)).length
                e l pf) 0) ^ 2).sum /
            (((locSlice rows e l).length - 1 : ℕ) : ℚ) : ℚ) : ℝ)) *
        Real.sqrt ((ddTimeFactor
          (pctChange ((locSlice rows e l).map Prod.snd)).length
          e l pf : ℚ) : ℝ)) := by
  have hlen : (pctChange ((locSlice rows e l).map Prod.snd)).length =
      (locSlice rows e l).length - 1 := by
    rw [pctChange_length, List.length_map]
  refine ⟨hlen, ?_⟩
  simp only [downside_deviation_func, hrange]
  congr 2
  · rw [← hlen]
    congr 1
    rw [sum_sq_filter_neg, List.map_map]
    rfl

/-- Witness for C5 at a concrete input: values
`1, 2/5, 2/25, 4/25, 8/25` on dates `0..4`, `MAR = 0`, fixed periods
factor 1: the two negative returns `-3/5, -4/5` have squares summing to
1, divided by the full return count 4 — not the negative-subset size 2.
-/
theorem downside_deviation_func_rms_witness :
    get_calc_range
        ([((0 : Int), (1 : ℚ)), (1, 2/5), (2, 2/25), (3, 4/25),
          (4, 8/25)].map Prod.fst) none none none = .ok (0, 4) ∧
    ((pctChange ((locSlice [((0 : Int), (1 : ℚ)), (1, 2/5), (2, 2/25),
        (3, 4/25), (4, 8/25)] 0 4).map Prod.snd)).length =
      (locSlice [((0 : Int), (1 : ℚ)), (1, 2/5), (2, 2/25), (3, 4/25),
        (4, 8/25)] 0 4).length - 1 ∧
    downside_deviation_func [((0 : Int), (1 : ℚ)), (1, 2/5), (2, 2/25),
        (3, 4/25), (4, 8/25)] 0 none none none (some 1) =
      .ok (Real.sqrt
          (((((pctChange ((locSlice [((0 : Int), (1 : ℚ)), (1, 2/5),
              (2, 2/25), (3, 4/25), (4, 8/25)] 0 4).map Prod.snd)).map
              fun r => (min (r - 0 / ddTimeFactor
                (pctChange ((locSlice [((0 : Int), (1 : ℚ)), (1, 2/5),
                  (2, 2/25), (3, 4/25), (4, 8/25)] 0 4).map
                    Prod.snd)).length
                0 4 (some 1)) 0) ^ 2).sum /
            (((locSlice [((0 : Int), (1 : ℚ)), (1, 2/5), (2, 2/25),
              (3, 4/25), (4, 8/25)] 0 4).length - 1 : ℕ) : ℚ) : ℚ) : ℝ)) *
        Real.sqrt ((ddTimeFactor
          (pctChange ((locSlice [((0 : Int), (1 : ℚ)), (1, 2/5),
            (2, 2/25), (3, 4/25), (4, 8/25)] 0 4).map Prod.snd)).length
          0 4 (some 1) : ℚ) : ℝ))) :=
  ⟨rfl, downside_deviation_func_rms _ 0 none none none (some 1) 0 4 rfl⟩

/-- Errors of the metric functions: a failed range resolution, the
"NonPositiveValueError" `ValueError` of `geo_ret_func`, a pandas
`KeyError` (`.loc` on a missing label) and Python's
`ZeroDivisionError`. -/
inductive MetricError where
  | rangeError (e : DateRangeError)
  | nonPositiveValueError
  | keyError
  | zeroDivisionError
  deriving DecidableEq, Repr

/-- `self.tsdf.loc[d]` on a single column: the value at a date label. -/
def rowValue (rows : List (Int × ℚ)) (d : Int) : Option ℚ :=
  (rows.find? fun r => r.1 == d).map fun r => r.2

/-- `CommonModel.geo_ret_func(months_from_last, from_date, to_date)`:
resolve the range, raise the non-positive-value `ValueError` when the
start value is zero or when the value at either boundary is negative,
else return `(v_end / v_start) ** (1 / yearfrac) - 1`. -/
noncomputable def geo_ret_func (rows : List (Int × ℚ))
    (mo fr tto : Option Int) : Except MetricError ℝ :=
  match get_calc_range (rows.map Prod.fst) mo fr tto with
  | .error e => .error (.rangeError e)
  | .ok (earlier, later) =>
      let fraction : ℚ := ((later - earlier : Int) : ℚ) / (1461/4)
      match rowValue rows earlier, rowValue rows later with
      | some ve, some vl =>
          if ve = 0 ∨ ve < 0 ∨ vl < 0 then .error .nonPositiveValueError
          else .ok (((vl : ℝ) / (ve : ℝ)) ^ ((1 : ℝ) / ((fraction : ℚ) : ℝ))
            - 1)
      | _, _ => .error .keyError

/-- C6 counterexample: a series whose value at the resolved end date is
zero does *not* raise: `geo_ret_func` on values 1 (day 0) and 0
(day 400) returns `ok (-1)` — `(0/1) ** (1/yearfrac) - 1` — although the
claim requires a `NonPositiveValueError` for a zero boundary value. -/
theorem geo_ret_func_zero_end_no_raise :
    geo_ret_func [((0 : Int), (1 : ℚ)), (400, 0)] none none none =
      .ok (-1) := by
  have hr : get_calc_range
      ([((0 : Int), (1 : ℚ)), (400, 0)].map Prod.fst) none none none =
        .ok (0, 400) := rfl
  have hfrac : ((((400 : Int) - 0 : Int) : ℚ) / (1461/4)) = 1600/1461 := by
    norm_num
  have hve : rowValue [((0 : Int), (1 : ℚ)), (400, 0)] 0 = some 1 := rfl
  have hvl : rowValue [((0 : Int), (1 : ℚ)), (400, 0)] 400 = some 0 := rfl
  simp only [geo_ret_func, hr, hve, hvl]
  have hcond : ¬((1 : ℚ) = 0 ∨ (1 : ℚ) < 0 ∨ (0 : ℚ) < 0) := by norm_num
  rw [if_neg hcond]
  have hexp : ((1 : ℝ) / ((((400 : Int) - 0 : Int) : ℚ) / (1461/4) : ℚ))
      ≠ 0 := by
    rw [hfrac]; norm_num
  norm_num [Real.zero_rpow hexp]

/-- C6 amended: `geo_ret_func` raises the non-positive-value error
exactly when the value at the resolved start date is zero or negative,
or the value at the resolved end date is negative; a *zero* value at
the end date does not raise.  Otherwise it returns
`(v_end / v_start) ** (1 / ((end - start)/365.25)) - 1`. -/
theorem geo_ret_func_boundary_condition (rows : List (Int × ℚ))
    (mo fr tto : Option Int) (e l : Int) (ve vl : ℚ)
    (hrange : get_calc_range (rows.map Prod.fst) mo fr tto = .ok (e, l))
    (hve : rowValue rows e = some ve) (hvl : rowValue rows l = some vl) :
    (geo_ret_func rows mo fr tto = .error .nonPositiveValueError ↔
      (ve ≤ 0 ∨ vl < 0)) ∧
    (¬(ve ≤ 0 ∨ vl < 0) →
      geo_ret_func rows mo fr tto =
        .ok (((vl : ℝ) / (ve : ℝ)) ^
          ((1 : ℝ) / ((((l - e : Int) : ℚ) / (1461/4) : ℚ) : ℝ)) - 1)) := by
  have hiff : (ve = 0 ∨ ve < 0 ∨ vl < 0) ↔ (ve ≤ 0 ∨ vl < 0) := by
    constructor
    · rintro (h | h | h)
      · exact Or.inl (le_of_eq h)
      · exact Or.inl (le_of_lt h)
      · exact Or.inr h
    · rintro (h | h)
      · rcases lt_or_eq_of_le h with h2 | h2
        · exact Or.inr (Or.inl h2)
        · exact Or.inl h2
      · exact Or.inr (Or.inr h)
  simp only [geo_ret_func, hrange, hve, hvl]
  by_cases hcond : ve = 0 ∨ ve < 0 ∨ vl < 0
  · rw [if_pos hcond]
    refine ⟨⟨fun _ => hiff.mp hcond, fun _ => rfl⟩, fun hn => ?_⟩
    exact absurd (hiff.mp hcond) hn
  · rw [if_neg hcond]
    refine ⟨⟨fun h => by simp at h, fun h => ?_⟩, fun _ => rfl⟩
    exact absurd (hiff.mpr h) hcond

/-- Witness for the amended C6: values 1 (day 0) and 2 (day 400), no
boundary condition triggered, result
`(2/1) ** (1/((400-0)/365.25)) - 1`. -/
theorem geo_ret_func_boundary_condition_witness :
    get_calc_range ([((0 : Int), (1 : ℚ)), (400, 2)].map Prod.fst)
        none none none = .ok (0, 400) ∧
    rowValue [((0 : Int), (1 : ℚ)), (400, 2)] 0 = some 1 ∧
    rowValue [((0 : Int), (1 : ℚ)), (400, 2)] 400 = some 2 ∧
    ((geo_ret_func [((0 : Int), (1 : ℚ)), (400, 2)] none none none =
        .error .nonPositiveValueError ↔ ((1 : ℚ) ≤ 0 ∨ (2 : ℚ) < 0)) ∧
      (¬((1 : ℚ) ≤ 0 ∨ (2 : ℚ) < 0) →
        geo_ret_func [((0 : Int), (1 : ℚ)), (400, 2)] none none none =
          .ok ((((2 : ℚ) : ℝ) / ((1 : ℚ) : ℝ)) ^
            ((1 : ℝ) / (((((400 : Int) - 0 : Int) : ℚ) / (1461/4) : ℚ) : ℝ))
              - 1))) :=
  ⟨rfl, rfl, rfl,
    geo_ret_func_boundary_condition [((0 : Int), (1 : ℚ)), (400, 2)]
      none none none 0 400 1 2 rfl rfl rfl⟩

/-! ## Annualization in `vol_func`: numpy/pandas float special values -/

/-- The IEEE-754 special values that the degenerate `vol_func` paths
produce: a finite value, the two infinities, or NaN. -/
inductive NpFloat where
  | val (x : ℝ)
  | posInf
  | negInf
  | nan

/-- numpy scalar division `count / fraction` where `count` is the
`numpy.int64` returned by `.count().iloc[0]` and `fraction` a float:
division by zero warns and yields `inf` (or `nan` for `0/0`) instead of
raising. -/
noncomputable def npDivCount (n : ℕ) (d : ℚ) : NpFloat :=
  if d = 0 then (if n = 0 then .nan else .posInf)
  else .val (((n : ℚ) / d : ℚ) : ℝ)

/-- `numpy.sqrt` on a scalar: negative argument gives NaN (with a
warning), infinity propagates. -/
noncomputable def npSqrt : NpFloat → NpFloat
  | .val x => if x < 0 then .nan else .val (Real.sqrt x)
  | .posInf => .posInf
  | .negInf => .nan
  | .nan => .nan

/-- IEEE float multiplication on the cases the code can reach. -/
noncomputable def npMul : NpFloat → NpFloat → NpFloat
  | .nan, _ => .nan
  | .val _, .nan => .nan
  | .posInf, .nan => .nan
  | .negInf, .nan => .nan
  | .val a, .val b => .val (a * b)
  | .val a, .posInf =>
      if a < 0 then .negInf else if a = 0 then .nan else .posInf
  | .val a, .negInf =>
      if a < 0 then .posInf else if a = 0 then .nan else .negInf
  | .posInf, .val b =>
      if b < 0 then .negInf else if b = 0 then .nan else .posInf
  | .negInf, .val b =>
      if b < 0 then .posInf else if b = 0 then .nan else .negInf
  | .posInf, .posInf => .posInf
  | .posInf, .negInf => .negInf
  | .negInf, .posInf => .negInf
  | .negInf, .negInf => .posInf

/-- `pandas.Series.std()` (ddof=1, skipna) over the pct_change column:
NaN when fewer than two (non-NaN) returns exist, else the sample
standard deviation. -/
noncomputable def pdStd (rets : List ℚ) : NpFloat :=
  if 2 ≤ rets.length then
    .val (Real.sqrt (sampleVar 1 (rets.map fun q => (q : ℝ))))
  else .nan

/-- The time factor of `CommonModel.vol_func`: the fixed value when
truthy, else the numpy-scalar division
`count / ((later - earlier).days / 365.25)` — which silently yields
`inf` when the resolved range has `earlier == later`. -/
noncomputable def cmTimeFactor (count : ℕ) (e l : Int) (pf : Option ℚ) :
    NpFloat :=
  if optTruthy pf then .val ((pf.getD 0 : ℚ) : ℝ)
  else npDivCount count (((l - e : Int) : ℚ) / (1461/4))

/-- `CommonModel.vol_func`: resolve the range, then
`data.pct_change().std().mul(sqrt(time_factor))` with the numpy-scalar
time factor above.  No division error is ever raised on this path. -/
noncomputable def vol_func_cm (rows : List (Int × ℚ))
    (mo fr tto : Option Int) (pf : Option ℚ) :
    Except MetricError NpFloat :=
  match get_calc_range (rows.map Prod.fst) mo fr tto with
  | .error e => .error (.rangeError e)
  | .ok (earlier, later) =>
      let slice := locSlice rows earlier later
      let tf := cmTimeFactor slice.length earlier later pf
      .ok (npMul (pdStd (pctChange (slice.map Prod.snd))) (npSqrt tf))

/-- `OpenTimeSeries.vol_func`: same computation, but `how_many` is a
Python `int`, so `how_many / fraction` raises `ZeroDivisionError` when
the fraction is zero (`start == end`). -/
noncomputable def vol_func_ts (rows : List (Int × ℚ))
    (mo fr tto : Option Int) (pf : Option ℚ) :
    Except MetricError NpFloat :=
  match get_calc_range (rows.map Prod.fst) mo fr tto with
  | .error e => .error (.rangeError e)
  | .ok (earlier, later) =>
      let slice := locSlice rows earlier later
      let rets := pctChange (slice.map Prod.snd)
      if optTruthy pf then
        .ok (npMul (pdStd rets) (npSqrt (.val ((pf.getD 0 : ℚ) : ℝ))))
      else
        let fraction : ℚ := ((later - earlier : Int) : ℚ) / (1461/4)
        if fraction = 0 then .error .zeroDivisionError
        else
          .ok (npMul (pdStd rets)
            (npSqrt (.val (((slice.length : ℚ) / fraction : ℚ) : ℝ))))

/-- C7 counterexample: requesting `vol_func` over the single-date range
`from_date = to_date = day 0` on a two-observation series does *not*
fail loudly in the `CommonModel` variant: the numpy-scalar division
`1 / 0.0` silently gives an infinite annualization factor and the
result is `ok NaN`, not an exception. -/
theorem vol_func_cm_silent_on_zero_fraction :
    vol_func_cm [((0 : Int), (1 : ℚ)), (1, 2)] none (some 0) (some 0)
      none = .ok .nan := by
  have hr : get_calc_range
      ([((0 : Int), (1 : ℚ)), (1, 2)].map Prod.fst) none (some 0)
        (some 0) = .ok (0, 0) := rfl
  have hslice : locSlice [((0 : Int), (1 : ℚ)), (1, 2)] 0 0 =
      [((0 : Int), (1 : ℚ))] := rfl
  have htf : cmTimeFactor 1 0 0 none = .posInf := by
    have hz : ((((0 : Int) - 0 : Int) : ℚ) / (1461/4)) = 0 := by norm_num
    simp [cmTimeFactor, optTruthy, npDivCount, hz]
  simp only [vol_func_cm, hr, hslice]
  simp [htf, pdStd, pctChange, npSqrt, npMul]

theorem locSlice_point (rows : List (Int × ℚ)) (e : Int)
    (hnodup : (rows.map Prod.fst).Nodup) (hmem : e ∈ rows.map Prod.fst) :
    locSlice rows e e = [(e, ((rowValue rows e).getD 0))] := by
  induction rows with
  | nil => simp at hmem
  | cons r rs ih =>
      simp only [List.map_cons, List.nodup_cons] at hnodup
      by_cases hr : r.1 = e
      · have hkeep : (decide (e ≤ r.1 ∧ r.1 ≤ e)) = true := by
          simp [hr]
        have hrest : rs.filter (fun x => decide (e ≤ x.1 ∧ x.1 ≤ e)) = [] := by
          rw [List.filter_eq_nil_iff]
          intro a ha
          simp only [decide_eq_true_eq, not_and, not_le]
          intro h1
          rcases lt_or_eq_of_le h1 with h2 | h2
          · exact h2
          · exfalso
            apply hnodup.1
            exact List.mem_map.mpr ⟨a, ha, by omega⟩
        have hval : rowValue (r :: rs) e = some r.2 := by
          simp [rowValue, List.find?_cons, hr]
        rw [hval]
        simp only [locSlice, List.filter_cons, hkeep, hrest]
        simp [Prod.ext_iff, hr]
      · have hmem2 : e ∈ rs.map Prod.fst := by
          rcases List.mem_map.mp hmem with ⟨a, ha, hae⟩
          rcases List.mem_cons.mp ha with rfl | ha2
          · exact absurd hae hr
          · exact List.mem_map.mpr ⟨a, ha2, hae⟩
        have hdrop : (decide (e ≤ r.1 ∧ r.1 ≤ e)) = false := by
          simp only [decide_eq_false_iff_not, not_and, not_le]
          intro h1
          rcases lt_or_eq_of_le h1 with h2 | h2
          · exact h2
          · exact absurd h2 fun h => hr h.symm
        have hval : rowValue (r :: rs) e = rowValue rs e := by
          simp [rowValue, List.find?_cons, hr]
        rw [hval]
        simp only [locSlice, List.filter_cons, hdrop]
        exact ih hnodup.2 hmem2

theorem locSlice_inverted (rows : List (Int × ℚ)) (e l : Int)
    (h : l < e) : locSlice rows e l = [] := by
  rw [locSlice, List.filter_eq_nil_iff]
  intro a _
  simp only [decide_eq_true_eq, not_and, not_le]
  intro h1
  omega

/-- C7 amended: only the `OpenTimeSeries.vol_func` variant fails loudly,
and only for `start == end`: there the Python `int / 0.0` raises
`ZeroDivisionError`, while `CommonModel.vol_func` silently computes an
*infinite* annualization factor (numpy `int64 / 0.0`) and returns NaN;
for inverted bounds (`end < start`) neither variant fails — both return
NaN silently. -/
theorem vol_func_degenerate_range (rows : List (Int × ℚ))
    (mo fr tto : Option Int) (e l : Int)
    (hrange : get_calc_range (rows.map Prod.fst) mo fr tto = .ok (e, l))
    (hnodup : (rows.map Prod.fst).Nodup) :
    (e = l → e ∈ rows.map Prod.fst →
      cmTimeFactor (locSlice rows e l).length e l none = .posInf ∧
      vol_func_cm rows mo fr tto none = .ok .nan ∧
      vol_func_ts rows mo fr tto none = .error .zeroDivisionError) ∧
    (l < e →
      vol_func_cm rows mo fr tto none = .ok .nan ∧
      vol_func_ts rows mo fr tto none = .ok .nan) := by
  constructor
  · rintro rfl hmem
    have hslice := locSlice_point rows e hnodup hmem
    have hlen : (locSlice rows e e).length = 1 := by rw [hslice]; rfl
    have hz : ((((e : Int) - e : Int) : ℚ) / (1461/4)) = 0 := by
      simp
    have htf : cmTimeFactor (locSlice rows e e).length e e none =
        .posInf := by
      rw [hlen]
      simp [cmTimeFactor, optTruthy, npDivCount, hz]
    refine ⟨htf, ?_, ?_⟩
    · simp only [vol_func_cm, hrange]
      rw [hslice]
      have hpct : pctChange ([(e, (rowValue rows e).getD 0)].map
          Prod.snd) = [] := rfl
      rw [hpct]
      rw [hslice] at htf
      rw [htf]
      simp [pdStd, npSqrt, npMul]
    · simp only [vol_func_ts, hrange]
      simp [optTruthy, hz]
  · intro hinv
    have hslice := locSlice_inverted rows e l hinv
    have hfrac : ((((l : Int) - e : Int) : ℚ) / (1461/4)) ≠ 0 := by
      apply div_ne_zero
      · have : ((l - e : Int) : ℚ) < 0 := by
          have : (l - e : Int) < 0 := by omega
          exact_mod_cast this
        exact ne_of_lt this
      · norm_num
    constructor
    · simp only [vol_func_cm, hrange]
      rw [hslice]
      have htf : cmTimeFactor ([] : List (Int × ℚ)).length e l none =
          npDivCount 0 (((l - e : Int) : ℚ) / (1461/4)) := by
        simp [cmTimeFactor, optTruthy]
      rw [htf]
      simp only [npDivCount, if_neg hfrac]
      simp [pdStd, pctChange, npSqrt, npMul]
    · simp only [vol_func_ts, hrange]
      rw [hslice]
      simp only [optTruthy, Bool.false_eq_true, if_false, if_neg hfrac]
      simp [pdStd, pctChange, npSqrt, npMul]

/-- Witness for the amended C7 at the concrete two-observation series
with `from_date = to_date = day 0`: resolved range has start == end,
the CommonModel factor is infinite with an `ok NaN` result, and the
OpenTimeSeries variant raises `ZeroDivisionError`. -/
theorem vol_func_degenerate_range_witness :
    get_calc_range ([((0 : Int), (1 : ℚ)), (1, 2)].map Prod.fst) none
        (some 0) (some 0) = .ok (0, 0) ∧
    (([((0 : Int), (1 : ℚ)), (1, 2)].map Prod.fst).Nodup) ∧
    (cmTimeFactor
        (locSlice [((0 : Int), (1 : ℚ)), (1, 2)] 0 0).length 0 0 none =
      .posInf ∧
    vol_func_cm [((0 : Int), (1 : ℚ)), (1, 2)] none (some 0) (some 0)
        none = .ok .nan ∧
    vol_func_ts [((0 : Int), (1 : ℚ)), (1, 2)] none (some 0) (some 0)
        none = .error .zeroDivisionError) :=
  ⟨rfl, by decide,
    (vol_func_degenerate_range [((0 : Int), (1 : ℚ)), (1, 2)] none
      (some 0) (some 0) 0 0 rfl (by decide)).1 rfl (by decide)⟩

/-! ## Portfolio combiner (`OpenFrame.make_portfolio`) -/

/-- Column value-type tags (level 1 of the column index); only
membership of `RTRN` matters to `make_portfolio`. -/
inductive ValueType where
  | price
  | rtrn
  deriving DecidableEq, Repr

inductive PortfolioError where
  | valueErrorNoWeights
  | dotShapeMismatch
  deriving DecidableEq, Repr

/-- `dframe.ffill().pct_change()` followed by `dframe.iloc[0] = 0` on a
complete multi-column table: the first row becomes zeros, each later
row the elementwise simple returns. -/
def pctChangeRowsZeroFirst (rows : List (Int × List ℚ)) :
    List (Int × List ℚ) :=
  match rows with
  | [] => []
  | r0 :: rest =>
      (r0.1, r0.2.map fun _ => (0 : ℚ)) ::
        ((rows.zip rest).map fun p =>
          (p.2.1, (p.1.2.zip p.2.2).map fun q => q.2 / q.1 - 1))

/-- The per-row dot product of `dframe.dot(weights)`. -/
def dotQ (w vs : List ℚ) : ℚ := ((w.zip vs).map fun p => p.1 * p.2).sum

/-- `.add(1.0).cumprod()`: running product of `1 + return`, keeping the
date labels. -/
def cumprodAux (acc : ℚ) : List (Int × ℚ) → List (Int × ℚ)
  | [] => []
  | r :: rs => (r.1, acc * (1 + r.2)) :: cumprodAux (acc * (1 + r.2)) rs

/-- `OpenFrame.make_portfolio(name, weight_strat=None)` on a frame whose
shared table has column tags `cols` and complete rows `rows`, with the
frame's weight list.  Raises when no weights are attached; converts the
table to simple returns when no column is tagged `RTRN` (zeroing the
first row); `dframe.dot(weights)` raises pandas' shape-mismatch
`ValueError` when the weight length differs from the column count; the
basket is the cumulative product of `1 + weighted return`.  (The
`weight_strat` branches delegate to external optimizers and are out of
scope.) -/
def make_portfolio (cols : List ValueType) (rows : List (Int × List ℚ))
    (weights : Option (List ℚ)) :
    Except PortfolioError (List (Int × ℚ)) :=
  match weights with
  | none => .error .valueErrorNoWeights
  | some w =>
      let dframe :=
        if cols.all fun c => c ≠ .rtrn then pctChangeRowsZeroFirst rows
        else rows
      if w.length ≠ cols.length then .error .dotShapeMismatch
      else .ok (cumprodAux 1 (dframe.map fun r => (r.1, dotQ w r.2)))

/-- The per-date weighted returns that `make_portfolio` compounds. -/
def portfolioReturns (cols : List ValueType)
    (rows : List (Int × List ℚ)) (w : List ℚ) : List (Int × ℚ) :=
  (if cols.all fun c => c ≠ .rtrn then pctChangeRowsZeroFirst rows
    else rows).map fun r => (r.1, dotQ w r.2)

theorem cumprodAux_fst (l : List (Int × ℚ)) :
    ∀ acc, (cumprodAux acc l).map Prod.fst = l.map Prod.fst := by
  induction l with
  | nil => intro acc; rfl
  | cons r rs ih =>
      intro acc
      simp [cumprodAux, ih]

theorem cumprodAux_length (l : List (Int × ℚ)) :
    ∀ acc, (cumprodAux acc l).length = l.length := by
  intro acc
  have := cumprodAux_fst l acc
  have h1 := congrArg List.length this
  simpa using h1

theorem cumprodAux_get_snd (l : List (Int × ℚ)) :
    ∀ (acc : ℚ) (n : ℕ) (hn : n < (cumprodAux acc l).length),
      ((cumprodAux acc l).get ⟨n, hn⟩).2 =
        acc * ((l.take (n + 1)).map fun r => 1 + r.2).prod := by
  induction l with
  | nil => intro acc n hn; simp [cumprodAux] at hn
  | cons r rs ih =>
      intro acc n hn
      match n with
      | 0 => simp [cumprodAux]
      | Nat.succ m =>
          have hm : m < (cumprodAux (acc * (1 + r.2)) rs).length := by
            simpa [cumprodAux] using hn
          have := ih (acc * (1 + r.2)) m hm
          simp only [cumprodAux, List.get_cons_succ]
          rw [this]
          simp [List.take_cons, mul_assoc]

/-- C8: `make_portfolio` with an attached weight list fails with the
dimension (shape-mismatch) error whenever the weight count differs from
the column count, and otherwise produces the basket whose value at each
date is the cumulative product, starting from 1, of `1 + weighted
return` over the table converted to simple returns when needed. -/
theorem make_portfolio_spec (cols : List ValueType)
    (rows : List (Int × List ℚ)) (w : List ℚ) :
    (w.length ≠ cols.length →
      make_portfolio cols rows (some w) = .error .dotShapeMismatch) ∧
    (w.length = cols.length →
      ∃ out, make_portfolio cols rows (some w) = .ok out ∧
        out.map Prod.fst = (portfolioReturns cols rows w).map Prod.fst ∧
        ∀ (n : ℕ) (hn : n < out.length),
          (out.get ⟨n, hn⟩).2 =
            (((portfolioReturns cols rows w).take (n + 1)).map
              fun r => 1 + r.2).prod) := by
  constructor
  · intro h
    simp [make_portfolio, h]
  · intro h
    refine ⟨cumprodAux 1 (portfolioReturns cols rows w), ?_, ?_, ?_⟩
    · simp [make_portfolio, h, portfolioReturns]
    · exact cumprodAux_fst _ 1
    · intro n hn
      rw [cumprodAux_get_snd _ 1 n hn, one_mul]

/-- Witness for C8: two price columns; a 1-element weight list raises
the shape mismatch, a 2-element one builds the compounded basket. -/
theorem make_portfolio_spec_witness :
    (([1] : List ℚ).length ≠ ([.price, .price] : List ValueType).length ∧
      make_portfolio [.price, .price]
        [((0 : Int), [(1 : ℚ), 2]), (1, [2, 2])] (some [1]) =
          .error .dotShapeMismatch) ∧
    (([1, 1] : List ℚ).length =
        ([.price, .price] : List ValueType).length ∧
      ∃ out, make_portfolio [.price, .price]
          [((0 : Int), [(1 : ℚ), 2]), (1, [2, 2])] (some [1, 1]) =
            .ok out ∧
        out.map Prod.fst = (portfolioReturns [.price, .price]
          [((0 : Int), [(1 : ℚ), 2]), (1, [2, 2])] [1, 1]).map Prod.fst ∧
        ∀ (n : ℕ) (hn : n < out.length),
          (out.get ⟨n, hn⟩).2 =
            (((portfolioReturns [.price, .price]
              [((0 : Int), [(1 : ℚ), 2]), (1, [2, 2])] [1, 1]).take
                (n + 1)).map fun r => 1 + r.2).prod) :=
  ⟨⟨by decide,
      (make_portfolio_spec [.price, .price]
        [((0 : Int), [(1 : ℚ), 2]), (1, [2, 2])] [1]).1 (by decide)⟩,
    ⟨by decide,
      (make_portfolio_spec [.price, .price]
        [((0 : Int), [(1 : ℚ), 2]), (1, [2, 2])] [1, 1]).2 (by decide)⟩⟩

/-! ## VaR / CVaR (`risk.cvar_down_calc`, `risk.var_down_calc`) -/

/-- `risk.cvar_down_calc(data, level)`: simple returns from the value
series, sorted ascending; the mean of the worst
`ceil(len * (1 - level))` returns. -/
def cvar_down_calc (data : List ℚ) (level : ℚ) : ℚ :=
  let ret := pctChange data
  let array := List.insertionSort (· ≤ ·) ret
  let k := (Int.ceil ((array.length : ℚ) * (1 - level))).toNat
  (array.take k).sum / ((array.take k).length : ℚ)

/-- `risk.var_down_calc(data, level)` with the default
`interpolation="lower"`: `numpy.quantile(ret, 1 - level,
method="lower")`, i.e. the order statistic at index
`floor((n - 1) * (1 - level))` of the ascending sort. -/
def var_down_calc (data : List ℚ) (level : ℚ) : ℚ :=
  let ret := pctChange data
  let sorted := List.insertionSort (· ≤ ·) ret
  sorted.getD (Int.floor (((ret.length : ℚ) - 1) * (1 - level))).toNat 0

/-- C9 counterexample: at level `0.7` the ordering fails.  Values
`1, 1, 1, 11, 121, 1331, 14641, 161051` give returns
`0, 0, 10, 10, 10, 10, 10`; CVaR averages the worst
`ceil(7 * 0.3) = 3` returns → `10/3`, while VaR is the order statistic
at index `floor(6 * 0.3) = 1` → `0`; so CVaR > VaR. -/
theorem cvar_down_gt_var_down_at_level_07 :
    ¬(cvar_down_calc [1, 1, 1, 11, 121, 1331, 14641, 161051] (7/10) ≤
      var_down_calc [1, 1, 1, 11, 121, 1331, 14641, 161051] (7/10)) := by
  have hret : pctChange [1, 1, 1, 11, 121, 1331, 14641, 161051] =
      [0, 0, 10, 10, 10, 10, 10] := by
    norm_num [pctChange]
  have hsorted : List.Sorted (· ≤ ·)
      ([0, 0, 10, 10, 10, 10, 10] : List ℚ) := by
    simp [List.sorted_cons]
  have hsort : List.insertionSort (· ≤ ·)
      ([0, 0, 10, 10, 10, 10, 10] : List ℚ) =
      [0, 0, 10, 10, 10, 10, 10] :=
    List.Sorted.insertionSort_eq hsorted
  have hk : (Int.ceil
      ((([0, 0, 10, 10, 10, 10, 10] : List ℚ).length : ℚ) * (1 - 7/10))).toNat
        = 3 := by
    have h1 : ((([0, 0, 10, 10, 10, 10, 10] : List ℚ).length : ℚ) *
        (1 - 7/10)) = 21/10 := by norm_num
    rw [h1]
    have h2 : (⌈(21 : ℚ)/10⌉ : ℤ) = 3 := by norm_num [Int.ceil_eq_iff]
    rw [h2]
    rfl
  have hj : (Int.floor
      (((([0, 0, 10, 10, 10, 10, 10] : List ℚ).length : ℚ) - 1) *
        (1 - 7/10))).toNat = 1 := by
    have h1 : ((((([0, 0, 10, 10, 10, 10, 10] : List ℚ).length : ℚ) - 1) *
        (1 - 7/10))) = 9/5 := by norm_num
    rw [h1]
    have h2 : (⌊(9 : ℚ)/5⌋ : ℤ) = 1 := by norm_num [Int.floor_eq_iff]
    rw [h2]
    rfl
  have hc : cvar_down_calc [1, 1, 1, 11, 121, 1331, 14641, 161051]
      (7/10) = 10/3 := by
    simp only [cvar_down_calc, hret, hsort, hk]
    norm_num
  have hv : var_down_calc [1, 1, 1, 11, 121, 1331, 14641, 161051]
      (7/10) = 0 := by
    simp only [var_down_calc, hret, hsort, hj]
    rfl
  rw [hc, hv]
  norm_num

theorem mean_take_le_sorted_getD (sorted : List ℚ)
    (hs : List.Sorted (· ≤ ·) sorted) (k j : ℕ) (hk1 : 1 ≤ k)
    (hkn : k ≤ sorted.length) (hj : j < sorted.length)
    (hkj : k - 1 ≤ j) :
    (sorted.take k).sum / ((sorted.take k).length : ℚ) ≤
      sorted.getD j 0 := by
  have hlen : (sorted.take k).length = k := by
    rw [List.length_take]; omega
  have hget : sorted.getD j 0 = sorted.get ⟨j, hj⟩ := by
    rw [List.getD_eq_getElem?_getD, List.getElem?_eq_getElem hj]
    rfl
  have hb : ∀ x ∈ sorted.take k, x ≤ sorted.getD j 0 := by
    intro x hx
    obtain ⟨i, hi, hxi⟩ := List.getElem_of_mem hx
    have hik : i < k := by rw [hlen] at hi; omega
    have hopt : (sorted.take k)[i]? = some x := by
      rw [List.getElem?_eq_getElem hi]
      exact congrArg some hxi
    rw [List.getElem?_take_of_lt hik] at hopt
    have hilen : i < sorted.length := by omega
    rw [List.getElem?_eq_getElem hilen] at hopt
    have hxe : sorted.get ⟨i, hilen⟩ = x := Option.some.inj hopt
    rw [hget, ← hxe]
    exact hs.rel_get_of_le (by simp [Fin.le_def]; omega)
  have hsum := List.sum_le_card_nsmul (sorted.take k)
    (sorted.getD j 0) hb
  rw [hlen, nsmul_eq_mul] at hsum
  rw [hlen]
  have hkpos : (0 : ℚ) < k := by exact_mod_cast hk1
  rw [div_le_iff₀ hkpos]
  calc (sorted.take k).sum ≤ (k : ℚ) * sorted.getD j 0 := hsum
    _ = sorted.getD j 0 * k := by ring

/-- C9 amended: the ordering `CVaR_down(level) <= VaR_down(level)` holds
for every value series with at least two observations whenever the
number of tail returns CVaR averages does not exceed the VaR order
statistic's index plus one (`ceil(q*N) <= floor(q*(N-1)) + 1` with
`q = 1 - level`), which holds in particular at the default level 0.95;
for general levels the ordering can fail. -/
theorem cvar_down_le_var_down (data : List ℚ) (level : ℚ)
    (hobs : 2 ≤ data.length) (hq0 : 0 < 1 - level)
    (hq1 : 1 - level ≤ 1)
    (hside : (Int.ceil (((pctChange data).length : ℚ) *
        (1 - level))).toNat ≤
      (Int.floor ((((pctChange data).length : ℚ) - 1) *
        (1 - level))).toNat + 1) :
    cvar_down_calc data level ≤ var_down_calc data level := by
  have hn : 1 ≤ (pctChange data).length := by
    rw [pctChange_length]; omega
  have hperm := List.perm_insertionSort (· ≤ ·) (pctChange data)
  have hlen : (List.insertionSort (· ≤ ·) (pctChange data)).length =
      (pctChange data).length := hperm.length_eq
  have hs := List.sorted_insertionSort (· ≤ ·) (pctChange data)
  simp only [cvar_down_calc, var_down_calc, hlen]
  apply mean_take_le_sorted_getD _ hs
  · have hpos : (0 : ℚ) < ((pctChange data).length : ℚ) * (1 - level) := by
      apply mul_pos _ hq0
      exact_mod_cast hn
    have := Int.ceil_pos.mpr hpos
    omega
  · rw [hlen]
    have hle : ((pctChange data).length : ℚ) * (1 - level) ≤
        ((pctChange data).length : ℤ) := by
      push_cast
      nlinarith [hq0, hq1]
    have := Int.ceil_le.mpr hle
    omega
  · rw [hlen]
    have hle : (((pctChange data).length : ℚ) - 1) * (1 - level) ≤
        ((((pctChange data).length : ℤ) - 1 : ℤ) : ℚ) := by
      push_cast
      nlinarith [hq0, hq1, (by exact_mod_cast hn :
        (1 : ℚ) ≤ ((pctChange data).length : ℚ))]
    have h3 : Int.floor ((((pctChange data).length : ℚ) - 1) *
        (1 - level)) ≤ ((pctChange data).length : ℤ) - 1 := by
      have h4 := Int.floor_le_floor hle
      rwa [Int.floor_intCast] at h4
    omega
  · omega

/-- Witness for the amended C9 at the default level 0.95 on a
two-observation series. -/
theorem cvar_down_le_var_down_witness :
    2 ≤ ([1, 2] : List ℚ).length ∧ (0 : ℚ) < 1 - 19/20 ∧
    (1 : ℚ) - 19/20 ≤ 1 ∧
    (Int.ceil (((pctChange [1, 2]).length : ℚ) * (1 - 19/20))).toNat ≤
      (Int.floor ((((pctChange [1, 2]).length : ℚ) - 1) *
        (1 - 19/20))).toNat + 1 ∧
    cvar_down_calc [1, 2] (19/20) ≤ var_down_calc [1, 2] (19/20) :=
  ⟨by norm_num, by norm_num, by norm_num,
    by
      have hlen : (pctChange ([1, 2] : List ℚ)).length = 1 := by
        norm_num [pctChange]
      rw [hlen]
      have h1 : ((1 : ℕ) : ℚ) * (1 - 19/20) = 1/20 := by norm_num
      have h2 : (((1 : ℕ) : ℚ) - 1) * (1 - 19/20) = 0 := by norm_num
      rw [h1, h2]
      have h3 : (⌈(1 : ℚ)/20⌉ : ℤ) = 1 := by norm_num [Int.ceil_eq_iff]
      have h4 : (⌊(0 : ℚ)⌋ : ℤ) = 0 := by norm_num
      rw [h3, h4]
      simp,
    cvar_down_le_var_down [1, 2] (19/20) (by norm_num) (by norm_num)
      (by norm_num)
      (by
      have hlen : (pctChange ([1, 2] : List ℚ)).length = 1 := by
        norm_num [pctChange]
      rw [hlen]
      have h1 : ((1 : ℕ) : ℚ) * (1 - 19/20) = 1/20 := by norm_num
      have h2 : (((1 : ℕ) : ℚ) - 1) * (1 - 19/20) = 0 := by norm_num
      rw [h1, h2]
      have h3 : (⌈(1 : ℚ)/20⌉ : ℤ) = 1 := by norm_num [Int.ceil_eq_iff]
      have h4 : (⌊(0 : ℚ)⌋ : ℤ) = 0 := by norm_num
      rw [h3, h4]
      simp)⟩

end OpenSeries
